import Mathlib

/-!
Shallow embedding of the tempo-estimation core of `src/lib/audio-utils.ts`.

JavaScript floating-point numbers are modelled as real numbers; integer-valued
quantities (sample counts, window sizes, lags, histogram keys) are modelled as
`Nat`/`Int`.  `Math.round` becomes `jsRound`, `Math.floor` on non-negative
integer quotients becomes `Nat` division, and the insertion-ordered JavaScript
`Map` becomes an association list updated in place (`histSet`/`histGet`).
-/

set_option maxRecDepth 2000

noncomputable section

/-- JavaScript `Math.round`: round half toward positive infinity. -/
def jsRound (x : ℝ) : ℤ := ⌊x + 1/2⌋

/-- Lookup in an insertion-ordered map, with the `|| 0` default used by
`histogram.get(bpm) || 0` in the source. -/
def histGet {κ β : Type} [DecidableEq κ] (zero : β) : List (κ × β) → κ → β
  | [], _ => zero
  | kv :: t, k => if kv.1 = k then kv.2 else histGet zero t k

/-- `Map.set`: overwrite the value of an existing key in place, otherwise
append the new entry, preserving insertion order. -/
def histSet {κ β : Type} [DecidableEq κ] (h : List (κ × β)) (k : κ) (v : β) :
    List (κ × β) :=
  if h.any (fun kv => kv.1 = k) then
    h.map (fun kv => if kv.1 = k then (k, v) else kv)
  else h ++ [(k, v)]

/-- `createHannWindow` from the source: `w[i] = 0.5 * (1 - cos(2πi/(size-1)))`. -/
def createHannWindow (size : ℕ) : List ℝ :=
  (List.range size).map fun (i : ℕ) =>
    0.5 * (1 - Real.cos (2 * Real.pi * i / ((size - 1 : ℕ) : ℝ)))

/-- `calculateSpectralFlux` from the source: root-mean-square energy of the
windowed segment. -/
def calculateSpectralFlux (window : List ℝ) : ℝ :=
  Real.sqrt ((window.map fun x => x * x).sum / (window.length : ℝ))

/-- The window extracted at start position `i`:
`window[j] = audioData[i + j] * hannWindow[j]`. -/
def windowAt (audioData hannWindow : List ℝ) (i windowSize : ℕ) : List ℝ :=
  (List.range windowSize).map fun j => audioData.getD (i + j) 0 * hannWindow.getD j 0

/-- `calculateOnsets` from the source: the loop
`for (i = 0; i < audioData.length - windowSize; i += hopSize)` visits exactly
the starts `k * hopSize` with `k * hopSize < length - windowSize`, i.e.
`⌈(length - windowSize) / hopSize⌉` windows (truncated subtraction models the
fact that the JavaScript loop does not run at all when `length ≤ windowSize`). -/
def calculateOnsets (audioData : List ℝ) (sampleRate windowSize hopSize : ℕ) : List ℝ :=
  let hannWindow := createHannWindow windowSize
  (List.range ((audioData.length - windowSize + hopSize - 1) / hopSize)).map
    fun k => calculateSpectralFlux (windowAt audioData hannWindow (k * hopSize) windowSize)

/-- The window of in-bounds values at indices `i - halfWindow .. i + halfWindow`
collected by the inner loop of `medianFilter`. -/
def medianWindow (data : List ℝ) (i halfWindow : ℕ) : List ℝ :=
  (List.range (2 * halfWindow + 1)).filterMap fun (t : ℕ) =>
    if 0 ≤ (i : ℤ) + t - halfWindow ∧ (i : ℤ) + t - halfWindow < (data.length : ℤ)
    then some (data.getD ((i : ℤ) + t - halfWindow).toNat 0) else none

/-- `window.sort((a, b) => a - b); window[Math.floor(window.length / 2)]`. -/
def listMedian (window : List ℝ) : ℝ :=
  (window.insertionSort (· ≤ ·)).getD (window.length / 2) 0

/-- `medianFilter` from the source. -/
def medianFilter (data : List ℝ) (windowSize : ℕ) : List ℝ :=
  (List.range data.length).map fun i => listMedian (medianWindow data i (windowSize / 2))

/-- Mean used by `pickPeaks`: `sum / data.length`. -/
def pickMean (data : List ℝ) : ℝ := data.sum / (data.length : ℝ)

/-- Standard deviation used by `pickPeaks`:
`sqrt(Σ (x - mean)² / data.length)`. -/
def pickStdDev (data : List ℝ) : ℝ :=
  Real.sqrt ((data.map fun x => (x - pickMean data) ^ 2).sum / (data.length : ℝ))

/-- Threshold used by `pickPeaks`: `mean + stdDev * 1.5`. -/
def pickThreshold (data : List ℝ) : ℝ := pickMean data + pickStdDev data * 1.5

/-- `pickPeaks` from the source: indices `1 ≤ i ≤ data.length - 2` whose value
strictly exceeds both neighbours and the statistical threshold. -/
def pickPeaks (data : List ℝ) : List ℕ :=
  (List.range' 1 (data.length - 1 - 1)).filter fun i =>
    decide (data.getD (i - 1) 0 < data.getD i 0 ∧ data.getD (i + 1) 0 < data.getD i 0 ∧
      pickThreshold data < data.getD i 0)

/-- The inter-peak intervals in seconds computed by `findTempo`:
`(peaks[i] - peaks[i-1]) * hopSize / sampleRate`. -/
def peakIntervals (peaks : List ℕ) (sampleRate hopSize : ℕ) : List ℝ :=
  (List.range (peaks.length - 1)).map fun k =>
    ((((peaks.getD (k + 1) 0 : ℤ) - (peaks.getD k 0 : ℤ)) * hopSize : ℤ) : ℝ) / (sampleRate : ℝ)

/-- The even-rounded BPM bucket of one interval:
`Math.round((60 / interval) / 2) * 2`. -/
def evenBPM (interval : ℝ) : ℤ := jsRound (60 / interval / 2) * 2

/-- `createIntervalHistogram` from the source: group BPM values into bins of 2,
counting one unit per interval whose even-rounded BPM is within range. -/
def createIntervalHistogram (intervals : List ℝ) (minBPM maxBPM : ℕ) : List (ℤ × ℕ) :=
  intervals.foldl
    (fun histogram interval =>
      if (minBPM : ℤ) ≤ evenBPM interval ∧ evenBPM interval ≤ (maxBPM : ℤ) then
        histSet histogram (evenBPM interval) (histGet 0 histogram (evenBPM interval) + 1)
      else histogram)
    []

/-- `findDominantBPM` from the source: iterate the histogram in insertion
order keeping the first strictly greatest count; default 120. -/
def findDominantBPM (histogram : List (ℤ × ℕ)) (minBPM maxBPM : ℕ) : ℝ :=
  (histogram.foldl
    (fun acc kv => if kv.2 > acc.1 then (kv.2, (kv.1 : ℝ)) else acc)
    ((0 : ℕ), (120 : ℝ))).2

/-- `minLag = Math.floor((60 * sampleRate) / (maxBPM * hopSize))`; on natural
numbers the float division plus `Math.floor` is exactly `Nat` division. -/
def autoMinLag (sampleRate hopSize maxBPM : ℕ) : ℕ := 60 * sampleRate / (maxBPM * hopSize)

/-- `maxLag = Math.floor((60 * sampleRate) / (minBPM * hopSize))`. -/
def autoMaxLag (sampleRate hopSize minBPM : ℕ) : ℕ := 60 * sampleRate / (minBPM * hopSize)

/-- The integer lags `minLag, minLag+1, ..., maxLag` searched by the fallback. -/
def autoLags (sampleRate hopSize minBPM maxBPM : ℕ) : List ℕ :=
  List.range' (autoMinLag sampleRate hopSize maxBPM)
    (autoMaxLag sampleRate hopSize minBPM + 1 - autoMinLag sampleRate hopSize maxBPM)

/-- The mean correlation at one lag: `Σ_{i=lag}^{len-1} onsets[i]*onsets[i-lag]`
divided by the number of summands. -/
def autoScore (onsets : List ℝ) (lag : ℕ) : ℝ :=
  ((List.range' lag (onsets.length - lag)).map fun i =>
      onsets.getD i 0 * onsets.getD (i - lag) 0).sum / ((onsets.length - lag : ℕ) : ℝ)

/-- The BPM a winning lag converts to: `60 / (lag * hopSize / sampleRate)`. -/
def autoBPM (sampleRate hopSize lag : ℕ) : ℝ := 60 / (((lag * hopSize : ℕ) : ℝ) / (sampleRate : ℝ))

/-- The body of the lag loop of `estimateBPMFromEnergy`: skip lags with no
valid samples, otherwise keep the pair (bestBPM, maxCorrelation), replacing it
when the correlation strictly improves. -/
def autoStep (onsets : List ℝ) (sampleRate hopSize : ℕ) (acc : ℝ × ℝ) (lag : ℕ) : ℝ × ℝ :=
  if 0 < onsets.length - lag then
    (if autoScore onsets lag > acc.2 then (autoBPM sampleRate hopSize lag, autoScore onsets lag)
     else acc)
  else acc

/-- `estimateBPMFromEnergy` from the source: autocorrelation fallback with the
final clamp `Math.max(minBPM, Math.min(maxBPM, bestBPM))`. -/
def estimateBPMFromEnergy (onsets : List ℝ) (sampleRate hopSize minBPM maxBPM : ℕ) : ℝ :=
  let best := (autoLags sampleRate hopSize minBPM maxBPM).foldl
    (autoStep onsets sampleRate hopSize) ((120 : ℝ), (0 : ℝ))
  max (minBPM : ℝ) (min (maxBPM : ℝ) best.1)

/-- `findTempo` from the source: histogram path when at least two peaks were
found, autocorrelation fallback otherwise. -/
def findTempo (onsets : List ℝ) (sampleRate hopSize minBPM maxBPM : ℕ) : ℝ :=
  let peaks := pickPeaks onsets
  if peaks.length < 2 then estimateBPMFromEnergy onsets sampleRate hopSize minBPM maxBPM
  else
    findDominantBPM (createIntervalHistogram (peakIntervals peaks sampleRate hopSize) minBPM maxBPM)
      minBPM maxBPM

/-- The slice `onsets.slice(start, end)` analysed for segment `i` of
`findStableTempo`. -/
def tempoSegment (onsets : List ℝ) (i : ℕ) : List ℝ :=
  let segmentSize := onsets.length / 4
  let start := i * segmentSize
  let stop := min (start + segmentSize * 2) onsets.length
  (onsets.drop start).take (stop - start)

/-- `findStableTempo` from the source: estimate four overlapping segments and
return the mode of the four candidates (first-seen wins ties). -/
def findStableTempo (onsets : List ℝ) (sampleRate hopSize minBPM maxBPM : ℕ) : ℝ :=
  let bpmCandidates := (List.range 4).map fun i =>
    findTempo (tempoSegment onsets i) sampleRate hopSize minBPM maxBPM
  let bpmCounts := bpmCandidates.foldl
    (fun m bpm => histSet m bpm (histGet 0 m bpm + 1)) ([] : List (ℝ × ℕ))
  (bpmCounts.foldl
    (fun acc kv => if kv.2 > acc.1 then (kv.2, kv.1) else acc)
    ((0 : ℕ), bpmCandidates.getD 0 0)).2

/-- `detectBPM` from the source, with the fixed parameters
`windowSize = 1024, hopSize = 512, minBPM = 60, maxBPM = 200`. -/
def detectBPM (audioData : List ℝ) (sampleRate : ℕ) : ℤ :=
  jsRound (findStableTempo (medianFilter (calculateOnsets audioData sampleRate 1024 512) 3)
    sampleRate 512 60 200)

/-- Modelled from the spec (claim C6 wording): onset-sequence length
`max(0, floor((len - windowSize) / hopSize) + 1)` with the fixed
`windowSize = 1024, hopSize = 512`. -/
def specOnsetLen (len : ℕ) : ℤ := max 0 (((len : ℤ) - 1024).fdiv 512 + 1)

/-- Maximum of a list of onset strengths, as in the spec's `max(onsets)`. -/
def listMax (l : List ℝ) : ℝ := l.foldl max (l.getD 0 0)

/-- Modelled from the spec (claim C4 wording): peak picking with the adaptive
threshold `max(onsets) * 0.3`. -/
def specPickPeaks (data : List ℝ) : List ℕ :=
  (List.range' 1 (data.length - 1 - 1)).filter fun i =>
    decide (data.getD (i - 1) 0 < data.getD i 0 ∧ data.getD (i + 1) 0 < data.getD i 0 ∧
      listMax data * 0.3 < data.getD i 0)

/-- Modelled from the spec (claim C5 wording): histogram with weight 1.0 for
the direct hit `round(60/interval)` and weight 0.5 for each in-range
half-time / double-time harmonic. -/
def specHistogram (intervals : List ℝ) (minBPM maxBPM : ℕ) : List (ℤ × ℝ) :=
  intervals.foldl
    (fun h interval =>
      let bpm := jsRound (60 / interval)
      let h1 := if (minBPM : ℤ) ≤ bpm ∧ bpm ≤ (maxBPM : ℤ) then
          histSet h bpm (histGet 0 h bpm + 1) else h
      let halfTime := jsRound ((bpm : ℝ) / 2)
      let h2 := if (minBPM : ℤ) ≤ halfTime ∧ halfTime ≤ (maxBPM : ℤ) then
          histSet h1 halfTime (histGet 0 h1 halfTime + 0.5) else h1
      let doubleTime := jsRound ((bpm : ℝ) * 2)
      if (minBPM : ℤ) ≤ doubleTime ∧ doubleTime ≤ (maxBPM : ℤ) then
        histSet h2 doubleTime (histGet 0 h2 doubleTime + 0.5) else h2)
    []

/-- Modelled from the spec (claim C5 wording): winner = bucket with the
strictly greatest accumulated weight, default 120 on an empty histogram. -/
def specHistWinner (intervals : List ℝ) (minBPM maxBPM : ℕ) : ℝ :=
  ((specHistogram intervals minBPM maxBPM).foldl
    (fun acc kv => if kv.2 > acc.1 then (kv.2, (kv.1 : ℝ)) else acc)
    ((0 : ℝ), (120 : ℝ))).2

/-- The lags of the fallback search range that have at least one valid
sample. -/
def specValidLags (onsets : List ℝ) (sampleRate hopSize minBPM maxBPM : ℕ) : List ℕ :=
  (autoLags sampleRate hopSize minBPM maxBPM).filter fun lag =>
    decide (0 < onsets.length - lag)

/-- Modelled from the spec (claim C7 wording): score every lag that has a
valid sample, convert the best-scoring lag (first on ties) to BPM, default to
120 only when no lag has any valid sample, then clamp into range. -/
def specFromEnergyClaim (onsets : List ℝ) (sampleRate hopSize minBPM maxBPM : ℕ) : ℝ :=
  let valid := specValidLags onsets sampleRate hopSize minBPM maxBPM
  let bpm :=
    if valid.isEmpty then (120 : ℝ)
    else autoBPM sampleRate hopSize
      (valid.foldl (fun best lag =>
        if autoScore onsets best < autoScore onsets lag then lag else best) (valid.headD 0))
  max (minBPM : ℝ) (min (maxBPM : ℝ) bpm)

/-- Modelled from the spec (claim C3 wording, spec section 4.5): onsets, then
peak picking, then the histogram path when at least two peaks exist, otherwise
the autocorrelation fallback, rounded at the very end -- with no median
filtering and no segment analysis in between. -/
def estimateTempoSpec (samples : List ℝ) (sampleRate : ℕ) : ℤ :=
  let onsets := calculateOnsets samples sampleRate 1024 512
  let peaks := pickPeaks onsets
  jsRound (if 2 ≤ peaks.length then
      findDominantBPM (createIntervalHistogram (peakIntervals peaks sampleRate 512) 60 200) 60 200
    else estimateBPMFromEnergy onsets sampleRate 512 60 200)

/-! ### Generic helper lemmas -/

theorem foldl_invariant {α β : Type*} (g : β → α → β) (P : β → Prop) (l : List α) (init : β)
    (h0 : P init) (hstep : ∀ acc x, x ∈ l → P acc → P (g acc x)) : P (l.foldl g init) := by
  induction l generalizing init with
  | nil => exact h0
  | cons a t ih =>
    rw [List.foldl_cons]
    exact ih (g init a) (hstep init a (List.mem_cons_self a t)
      h0) fun acc x hx hacc => hstep acc x (List.mem_cons_of_mem a hx) hacc

theorem foldl_fixed {α β : Type*} (g : β → α → β) (l : List α) (init : β)
    (h : ∀ acc x, x ∈ l → g acc x = acc) : l.foldl g init = init := by
  induction l generalizing init with
  | nil => rfl
  | cons a t ih =>
    rw [List.foldl_cons, h init a (List.mem_cons_self a t)]
    exact ih init fun acc x hx => h acc x (List.mem_cons_of_mem a hx)

theorem getD_replicate {α : Type*} (n : ℕ) (a : α) (i : ℕ) (d : α) :
    (List.replicate n a).getD i d = if i < n then a else d := by
  induction n generalizing i with
  | zero => simp
  | succ n ih =>
    cases i with
    | zero => simp [List.replicate]
    | succ i => simpa [List.replicate, Nat.succ_lt_succ_iff] using ih i

theorem getD_range_map {α : Type*} (f : ℕ → α) (n j : ℕ) (d : α) :
    ((List.range n).map f).getD j d = if j < n then f j else d := by
  induction n generalizing j with
  | zero => simp
  | succ n ih =>
    rcases Nat.lt_or_ge j n with hj | hj
    · rw [List.range_succ, List.map_append, List.getD_append]
      · simp [ih, hj, Nat.lt_succ_of_lt hj]
      · simpa using hj
    · rcases Nat.eq_or_lt_of_le hj with rfl | hj'
      · rw [List.range_succ, List.map_append, List.getD_append_right]
        · simp
        · simp
      · rw [List.range_succ, List.map_append, List.getD_append_right]
        · have h1 : ¬ (j < n + 1) := by omega
          have hnone : ([f n])[j - n]? = none := List.getElem?_eq_none (by simp; omega)
          simp [h1, List.getD_eq_getElem?_getD, hnone]
        · simpa using hj

theorem getD_map_mul (c : ℝ) (l : List ℝ) (i : ℕ) :
    (l.map fun x => c * x).getD i 0 = c * l.getD i 0 := by
  induction l generalizing i with
  | nil => simp
  | cons a t ih =>
    cases i with
    | zero => simp
    | succ i =>
      simp only [List.map_cons, List.getD_cons_succ]
      exact ih i

theorem sum_map_mul_of (c : ℝ) {α : Type*} (l : List α) (f : α → ℝ) :
    (l.map fun x => c * f x).sum = c * (l.map f).sum := by
  induction l with
  | nil => simp
  | cons a t ih => simp [ih, mul_add]

/-! ### Association-list (insertion-ordered map) lemmas -/

theorem histGet_nil {κ β : Type} [DecidableEq κ] (zero : β) (k : κ) :
    histGet zero [] k = zero := rfl

theorem histGet_cons {κ β : Type} [DecidableEq κ] (zero : β) (kv : κ × β)
    (t : List (κ × β)) (k : κ) :
    histGet zero (kv :: t) k = if kv.1 = k then kv.2 else histGet zero t k := rfl

theorem histGet_histSet_self {κ β : Type} [DecidableEq κ] (zero : β)
    (h : List (κ × β)) (k : κ) (v : β) : histGet zero (histSet h k v) k = v := by
  induction h with
  | nil => simp [histSet, histGet_cons, histGet_nil]
  | cons kv t ih =>
    by_cases hk : kv.1 = k
    · rw [histSet, if_pos (by simp [hk])]
      simp [histGet_cons, hk]
    · by_cases ht : t.any (fun kv => decide (kv.1 = k)) = true
      · rw [histSet, if_pos (by simp [hk, ht])]
        rw [histSet, if_pos ht] at ih
        simpa [histGet_cons, hk] using ih
      · rw [histSet, if_neg (by simp [hk]; simpa using ht)]
        rw [histSet, if_neg ht] at ih
        simpa [histGet_cons, hk] using ih

theorem histGet_map_subst {κ β : Type} [DecidableEq κ] (zero : β)
    (t : List (κ × β)) (k k' : κ) (v : β) (hne : k' ≠ k) :
    histGet zero (t.map fun kv => if kv.1 = k then (k, v) else kv) k' =
      histGet zero t k' := by
  induction t with
  | nil => rfl
  | cons kv t ih =>
    by_cases hk : kv.1 = k
    · have h1 : ¬ kv.1 = k' := fun hc => hne (hc.symm.trans hk)
      simp [histGet_cons, hk, Ne.symm hne, h1, ih]
    · simp [histGet_cons, hk, ih]

theorem histGet_append_of_ne {κ β : Type} [DecidableEq κ] (zero : β)
    (h : List (κ × β)) (k k' : κ) (v : β) (hne : k' ≠ k) :
    histGet zero (h ++ [(k, v)]) k' = histGet zero h k' := by
  induction h with
  | nil => simp [histGet_nil, histGet_cons, Ne.symm hne]
  | cons kv t ih => by_cases hk : kv.1 = k' <;> simp [histGet_cons, hk, ih]

theorem histGet_histSet_ne {κ β : Type} [DecidableEq κ] (zero : β)
    (h : List (κ × β)) (k k' : κ) (v : β) (hne : k' ≠ k) :
    histGet zero (histSet h k v) k' = histGet zero h k' := by
  rw [histSet]
  split
  · exact histGet_map_subst zero h k k' v hne
  · exact histGet_append_of_ne zero h k k' v hne

theorem mem_histSet {κ β : Type} [DecidableEq κ] (h : List (κ × β)) (k : κ) (v : β) :
    ∀ kv ∈ histSet h k v, kv = (k, v) ∨ kv ∈ h := by
  intro kv hkv
  rw [histSet] at hkv
  split at hkv
  · rcases List.mem_map.mp hkv with ⟨kv', hkv', heq⟩
    by_cases hk : kv'.1 = k
    · left; rw [← heq, if_pos hk]
    · right; rw [← heq, if_neg hk]; exact hkv'
  · rcases List.mem_append.mp hkv with hmem | hmem
    · right; exact hmem
    · left; simpa using hmem

/-! ### Rounding lemmas -/

theorem jsRound_intCast (n : ℤ) : jsRound (n : ℝ) = n := by
  rw [jsRound, Int.floor_eq_iff]
  constructor <;> [linarith; push_cast] <;> linarith

theorem jsRound_mono {x y : ℝ} (h : x ≤ y) : jsRound x ≤ jsRound y := by
  rw [jsRound, jsRound]
  exact Int.floor_mono (by linarith)

theorem le_jsRound_int {x : ℝ} {n : ℤ} (h : (n : ℝ) ≤ x) : n ≤ jsRound x := by
  calc n = jsRound (n : ℝ) := (jsRound_intCast n).symm
    _ ≤ jsRound x := jsRound_mono h

theorem jsRound_le_int {x : ℝ} {n : ℤ} (h : x ≤ (n : ℝ)) : jsRound x ≤ n := by
  calc jsRound x ≤ jsRound (n : ℝ) := jsRound_mono h
    _ = n := jsRound_intCast n

theorem jsRound_onetwenty : jsRound (120 : ℝ) = 120 := by
  simpa using jsRound_intCast 120

theorem jsRound_twohundred : jsRound (200 : ℝ) = 200 := by
  simpa using jsRound_intCast 200

/-! ### Behaviour on short or empty input -/

theorem calculateOnsets_of_short (audioData : List ℝ) (sampleRate : ℕ)
    (h : audioData.length ≤ 1024) : calculateOnsets audioData sampleRate 1024 512 = [] := by
  rw [calculateOnsets]
  have hn : (audioData.length - 1024 + 511) / 512 = 0 := by omega
  simp [hn]

theorem medianFilter_nil (windowSize : ℕ) : medianFilter [] windowSize = [] := by
  simp [medianFilter]

theorem pickPeaks_nil : pickPeaks [] = [] := by
  simp [pickPeaks]

theorem estimateBPMFromEnergy_nil (sampleRate hopSize minBPM maxBPM : ℕ) :
    estimateBPMFromEnergy [] sampleRate hopSize minBPM maxBPM =
      max (minBPM : ℝ) (min (maxBPM : ℝ) 120) := by
  simp only [estimateBPMFromEnergy]
  rw [foldl_fixed _ _ _ fun acc lag _ => by simp [autoStep]]

theorem findTempo_nil (sampleRate hopSize : ℕ) :
    findTempo [] sampleRate hopSize 60 200 = 120 := by
  simp only [findTempo, pickPeaks_nil]
  rw [if_pos (by norm_num), estimateBPMFromEnergy_nil]
  norm_num

theorem tempoSegment_nil (i : ℕ) : tempoSegment [] i = [] := by
  simp [tempoSegment]

theorem findStableTempo_nil (sampleRate hopSize : ℕ) :
    findStableTempo [] sampleRate hopSize 60 200 = 120 := by
  simp only [findStableTempo, tempoSegment_nil, findTempo_nil]
  norm_num [List.range_succ, histSet, histGet_nil, histGet_cons]

/-- C2 counterexample: on a buffer shorter than one analysis window (here the
empty buffer) `detectBPM` succeeds and returns the default 120; the code has
no `InsufficientSamples` error condition at all, contradicting the claim that
short buffers fail and in particular never produce 120. -/
theorem detectBPM_empty_returns_default : detectBPM [] 44100 = 120 := by
  rw [detectBPM, calculateOnsets_of_short [] 44100 (by simp), medianFilter_nil,
    findStableTempo_nil]
  exact jsRound_onetwenty

/-- C2 (amended): for every buffer shorter than the window size (1024) and
every sample rate, `detectBPM` returns the default BPM 120; no error is
raised. -/
theorem detectBPM_short_eq_default (audioData : List ℝ) (sampleRate : ℕ)
    (h : audioData.length < 1024) : detectBPM audioData sampleRate = 120 := by
  rw [detectBPM, calculateOnsets_of_short audioData sampleRate (le_of_lt h), medianFilter_nil,
    findStableTempo_nil]
  exact jsRound_onetwenty

/-- Witness for C2 (amended) at a concrete short buffer. -/
theorem detectBPM_short_eq_default_witness :
    ([(0 : ℝ)].length < 1024) ∧ detectBPM [(0 : ℝ)] 48000 = 120 :=
  ⟨by simp, detectBPM_short_eq_default [(0 : ℝ)] 48000 (by simp)⟩

/-! ### Range of the result (C1) -/

theorem estimateBPMFromEnergy_mem (onsets : List ℝ) (sampleRate hopSize : ℕ) :
    60 ≤ estimateBPMFromEnergy onsets sampleRate hopSize 60 200 ∧
      estimateBPMFromEnergy onsets sampleRate hopSize 60 200 ≤ 200 := by
  simp only [estimateBPMFromEnergy]
  have h1 : ((60 : ℕ) : ℝ) = 60 := by norm_num
  have h2 : ((200 : ℕ) : ℝ) = 200 := by norm_num
  rw [h1, h2]
  exact ⟨le_max_left _ _, max_le (by norm_num) (min_le_left _ _)⟩

theorem createIntervalHistogram_keys (intervals : List ℝ) (minBPM maxBPM : ℕ) :
    ∀ kv ∈ createIntervalHistogram intervals minBPM maxBPM,
      (minBPM : ℤ) ≤ kv.1 ∧ kv.1 ≤ (maxBPM : ℤ) := by
  rw [createIntervalHistogram]
  refine foldl_invariant _
    (fun h : List (ℤ × ℕ) => ∀ kv ∈ h, (minBPM : ℤ) ≤ kv.1 ∧ kv.1 ≤ (maxBPM : ℤ))
    intervals [] (by simp) ?_
  intro acc interval _ hacc
  dsimp only
  split
  · intro kv hkv
    rcases mem_histSet acc _ _ kv hkv with rfl | hmem
    · rename_i hrange
      exact hrange
    · exact hacc kv hmem
  · exact hacc

theorem findDominantBPM_mem (histogram : List (ℤ × ℕ))
    (hkeys : ∀ kv ∈ histogram, (60 : ℤ) ≤ kv.1 ∧ kv.1 ≤ 200) :
    60 ≤ findDominantBPM histogram 60 200 ∧ findDominantBPM histogram 60 200 ≤ 200 := by
  rw [findDominantBPM]
  have hmain :
      (fun acc : ℕ × ℝ => 60 ≤ acc.2 ∧ acc.2 ≤ 200)
        (histogram.foldl (fun acc kv => if kv.2 > acc.1 then (kv.2, (kv.1 : ℝ)) else acc)
          ((0 : ℕ), (120 : ℝ))) := by
    refine foldl_invariant _ (fun acc : ℕ × ℝ => 60 ≤ acc.2 ∧ acc.2 ≤ 200) histogram _
      (by norm_num) ?_
    intro acc kv hkv hacc
    dsimp only
    split
    · have hb := hkeys kv hkv
      refine ⟨?_, ?_⟩ <;> simp only [] <;> [exact_mod_cast hb.1; exact_mod_cast hb.2]
    · exact hacc
  exact hmain

theorem findTempo_mem (onsets : List ℝ) (sampleRate hopSize : ℕ) :
    60 ≤ findTempo onsets sampleRate hopSize 60 200 ∧
      findTempo onsets sampleRate hopSize 60 200 ≤ 200 := by
  simp only [findTempo]
  split
  · exact estimateBPMFromEnergy_mem _ _ _
  · refine findDominantBPM_mem _ ?_
    have hk := createIntervalHistogram_keys
      (peakIntervals (pickPeaks onsets) sampleRate hopSize) 60 200
    intro kv hkv
    have := hk kv hkv
    exact ⟨by exact_mod_cast this.1, by exact_mod_cast this.2⟩

theorem countFold_keys {α : Type} [DecidableEq α] (l : List α) :
    ∀ kv ∈ l.foldl (fun m b => histSet m b (histGet 0 m b + 1)) ([] : List (α × ℕ)),
      kv.1 ∈ l := by
  refine foldl_invariant _ (fun m : List (α × ℕ) => ∀ kv ∈ m, kv.1 ∈ l) l [] (by simp) ?_
  intro acc x hx hacc kv hkv
  rcases mem_histSet acc x _ kv hkv with rfl | hmem
  · exact hx
  · exact hacc kv hmem

theorem findStableTempo_mem (onsets : List ℝ) (sampleRate hopSize : ℕ) :
    60 ≤ findStableTempo onsets sampleRate hopSize 60 200 ∧
      findStableTempo onsets sampleRate hopSize 60 200 ≤ 200 := by
  simp only [findStableTempo]
  have hcand : ∀ b ∈ (List.range 4).map
      (fun i => findTempo (tempoSegment onsets i) sampleRate hopSize 60 200),
      60 ≤ b ∧ b ≤ 200 := by
    intro b hb
    rcases List.mem_map.mp hb with ⟨i, _, rfl⟩
    exact findTempo_mem _ _ _
  have hcounts := countFold_keys ((List.range 4).map
    (fun i => findTempo (tempoSegment onsets i) sampleRate hopSize 60 200))
  have hinit : 60 ≤ ((List.range 4).map
      (fun i => findTempo (tempoSegment onsets i) sampleRate hopSize 60 200)).getD 0 0 ∧
      ((List.range 4).map
      (fun i => findTempo (tempoSegment onsets i) sampleRate hopSize 60 200)).getD 0 0 ≤ 200 := by
    rw [getD_range_map]
    rw [if_pos (by norm_num)]
    exact findTempo_mem _ _ _
  refine foldl_invariant _ (fun acc : ℕ × ℝ => 60 ≤ acc.2 ∧ acc.2 ≤ 200) _ _ hinit ?_
  intro acc kv hkv hacc
  dsimp only
  split
  · exact hcand kv.1 (hcounts kv hkv)
  · exact hacc

/-- C1: for every sample buffer and every positive integer sample rate, the
top-level `detectBPM` (windowSize 1024, hopSize 512, minBPM 60, maxBPM 200)
returns a value within [60, 200]. -/
theorem detectBPM_mem_range (audioData : List ℝ) (sampleRate : ℕ) (hsr : 0 < sampleRate) :
    60 ≤ detectBPM audioData sampleRate ∧ detectBPM audioData sampleRate ≤ 200 := by
  rw [detectBPM]
  have h := findStableTempo_mem (medianFilter (calculateOnsets audioData sampleRate 1024 512) 3)
    sampleRate 512
  constructor
  · exact le_jsRound_int (by exact_mod_cast h.1)
  · exact jsRound_le_int (by exact_mod_cast h.2)

/-- Witness for C1 at a concrete buffer and sample rate. -/
theorem detectBPM_mem_range_witness :
    0 < 44100 ∧ (60 ≤ detectBPM [] 44100 ∧ detectBPM [] 44100 ≤ 200) :=
  ⟨by norm_num, detectBPM_mem_range [] 44100 (by norm_num)⟩

/-! ### The peak picker (C4, C9) -/

theorem mem_pickPeaks (data : List ℝ) (i : ℕ) :
    i ∈ pickPeaks data ↔
      1 ≤ i ∧ i + 1 < data.length ∧
        data.getD (i - 1) 0 < data.getD i 0 ∧ data.getD (i + 1) 0 < data.getD i 0 ∧
          pickThreshold data < data.getD i 0 := by
  rw [pickPeaks, List.mem_filter]
  simp only [List.mem_range'_1, decide_eq_true_eq]
  constructor
  · rintro ⟨⟨h1, h2⟩, h3, h4, h5⟩
    exact ⟨h1, by omega, h3, h4, h5⟩
  · rintro ⟨h1, h2, h3, h4, h5⟩
    exact ⟨⟨h1, by omega⟩, h3, h4, h5⟩

theorem pickMean_cex : pickMean [(0 : ℝ), 2, 0, 2] = 1 := by
  norm_num [pickMean]

theorem pickStdDev_cex : pickStdDev [(0 : ℝ), 2, 0, 2] = 1 := by
  have harg : ((([(0 : ℝ), 2, 0, 2]).map fun x => (x - pickMean [(0 : ℝ), 2, 0, 2]) ^ 2).sum /
      (([(0 : ℝ), 2, 0, 2]).length : ℝ)) = 1 := by
    simp only [pickMean_cex]
    norm_num
  rw [pickStdDev, harg, Real.sqrt_one]

theorem pickThreshold_cex : pickThreshold [(0 : ℝ), 2, 0, 2] = 5 / 2 := by
  rw [pickThreshold, pickMean_cex, pickStdDev_cex]
  norm_num

theorem pickPeaks_cex : pickPeaks [(0 : ℝ), 2, 0, 2] = [] := by
  have h1 : ¬ (1 ∈ pickPeaks [(0 : ℝ), 2, 0, 2]) := by
    rw [mem_pickPeaks]
    rintro ⟨-, -, -, -, h⟩
    rw [pickThreshold_cex] at h
    norm_num at h
  have h2 : ¬ (2 ∈ pickPeaks [(0 : ℝ), 2, 0, 2]) := by
    rw [mem_pickPeaks]
    rintro ⟨-, -, h, -, -⟩
    norm_num at h
  have hsub : ∀ j ∈ pickPeaks [(0 : ℝ), 2, 0, 2], j ∈ List.range' 1 2 := by
    intro j hj
    have := (mem_pickPeaks _ j).mp hj
    have hlen : ([(0 : ℝ), 2, 0, 2]).length = 4 := by norm_num
    rw [hlen] at this
    simp only [List.mem_range'_1]
    omega
  rcases hp : pickPeaks [(0 : ℝ), 2, 0, 2] with - | ⟨j, t⟩
  · rfl
  · exfalso
    have hj : j ∈ List.range' 1 2 := hsub j (by rw [hp]; exact List.mem_cons_self j t)
    have hj' : j = 1 ∨ j = 2 := by
      have := List.mem_range'_1.mp hj
      omega
    rcases hj' with rfl | rfl
    · exact h1 (by rw [hp]; exact List.mem_cons_self 1 t)
    · exact h2 (by rw [hp]; exact List.mem_cons_self 2 t)

theorem listMax_cex : listMax [(0 : ℝ), 2, 0, 2] = 2 := by
  rw [listMax]
  norm_num [max_def]

theorem specPickPeaks_cex : specPickPeaks [(0 : ℝ), 2, 0, 2] = [1] := by
  rw [specPickPeaks]
  rw [show ([(0 : ℝ), 2, 0, 2].length - 1 - 1) = 2 by norm_num]
  rw [show List.range' 1 2 = [1, 2] from rfl]
  rw [List.filter_cons, List.filter_cons, List.filter_nil]
  rw [if_pos (by rw [listMax_cex]; norm_num), if_neg (by rw [listMax_cex]; norm_num)]

/-- C4 counterexample: the source's peak picker uses the statistical threshold
`mean + 1.5 * stdDev`, not the claimed `max(onsets) * 0.3`; on `[0, 2, 0, 2]`
the code finds no peak while the claimed rule yields the peak `[1]`. -/
theorem pickPeaks_ne_specPickPeaks :
    pickPeaks [(0 : ℝ), 2, 0, 2] ≠ specPickPeaks [(0 : ℝ), 2, 0, 2] := by
  rw [pickPeaks_cex, specPickPeaks_cex]
  simp

/-- C4 (amended): the peak picker returns exactly the positions
`1 ≤ i ≤ len - 2` whose onset value strictly exceeds both neighbours and the
statistical threshold `mean + stdDev * 1.5` (not the spec's `max * 0.3`). -/
theorem pickPeaks_mem_iff (data : List ℝ) (i : ℕ) :
    i ∈ pickPeaks data ↔
      1 ≤ i ∧ i + 1 < data.length ∧
        data.getD (i - 1) 0 < data.getD i 0 ∧ data.getD (i + 1) 0 < data.getD i 0 ∧
          pickThreshold data < data.getD i 0 :=
  mem_pickPeaks data i

theorem pickMean_spike : pickMean [(0 : ℝ), 0, 1, 0] = 1 / 4 := by
  norm_num [pickMean]

theorem pickStdDev_spike_lt : pickStdDev [(0 : ℝ), 0, 1, 0] < 1 / 2 := by
  have harg : ((([(0 : ℝ), 0, 1, 0]).map fun x => (x - pickMean [(0 : ℝ), 0, 1, 0]) ^ 2).sum /
      (([(0 : ℝ), 0, 1, 0]).length : ℝ)) = 3 / 16 := by
    simp only [pickMean_spike]
    norm_num
  rw [pickStdDev, harg]
  rw [show (3 / 16 : ℝ) = (3 / 16 : ℝ) from rfl]
  have h := Real.sqrt_lt' (x := (3 / 16 : ℝ)) (y := (1 / 2 : ℝ)) (by norm_num)
  rw [h]
  norm_num

theorem two_mem_pickPeaks_spike : 2 ∈ pickPeaks [(0 : ℝ), 0, 1, 0] := by
  rw [mem_pickPeaks]
  refine ⟨by norm_num, by norm_num, by norm_num, by norm_num, ?_⟩
  have hgd : ([(0 : ℝ), 0, 1, 0]).getD 2 0 = 1 := by norm_num
  rw [hgd, pickThreshold, pickMean_spike]
  have := pickStdDev_spike_lt
  linarith

/-- C9: for every onset sequence, the peak positions are strictly increasing,
every peak `p` satisfies `0 < p < len - 1` (edges never occur and all peaks
are valid indices), and onset sequences of length at most one yield no
peaks. -/
theorem pickPeaks_invariants (onsets : List ℝ) :
    List.Pairwise (· < ·) (pickPeaks onsets) ∧
      (∀ p ∈ pickPeaks onsets, 0 < p ∧ p + 1 < onsets.length) ∧
      (onsets.length ≤ 1 → pickPeaks onsets = []) := by
  refine ⟨?_, ?_, ?_⟩
  · rw [pickPeaks]
    exact (List.pairwise_lt_range' 1 (onsets.length - 1 - 1)).filter _
  · intro p hp
    have h := (mem_pickPeaks onsets p).mp hp
    exact ⟨h.1, h.2.1⟩
  · intro hlen
    rw [pickPeaks]
    have h0 : onsets.length - 1 - 1 = 0 := by omega
    rw [h0]
    rfl

/-- Witness for C9: a concrete peak inside `[0, 0, 1, 0]` is interior and a
valid index, and the empty onset sequence has no peaks. -/
theorem pickPeaks_invariants_witness :
    (0 < 2 ∧ 2 + 1 < ([(0 : ℝ), 0, 1, 0]).length) ∧ pickPeaks ([] : List ℝ) = [] :=
  ⟨(pickPeaks_invariants [(0 : ℝ), 0, 1, 0]).2.1 2 two_mem_pickPeaks_spike,
   (pickPeaks_invariants ([] : List ℝ)).2.2 (by simp)⟩

/-! ### The median filter (C10) -/

theorem getD_mem_of_lt {α : Type*} (l : List α) (i : ℕ) (d : α) (h : i < l.length) :
    l.getD i d ∈ l := by
  rw [List.getD_eq_getElem?_getD, List.getElem?_eq_getElem h]
  exact List.getElem_mem h

theorem self_mem_medianWindow (data : List ℝ) (i half : ℕ) (h : i < data.length) :
    data.getD i 0 ∈ medianWindow data i half := by
  have hmem : half ∈ List.range (2 * half + 1) := List.mem_range.mpr (by omega)
  have hval : (if 0 ≤ (i : ℤ) + half - half ∧ (i : ℤ) + half - half < (data.length : ℤ)
      then some (data.getD ((i : ℤ) + half - half).toNat 0) else none) =
        some (data.getD i 0) := by
    have hidx : ((i : ℤ) + half - half) = (i : ℤ) := by ring
    rw [hidx, if_pos ⟨Int.natCast_nonneg i, by exact_mod_cast h⟩]
    simp
  rw [medianWindow]
  exact List.mem_filterMap.mpr ⟨half, hmem, hval⟩

theorem medianWindow_subset (data : List ℝ) (i half : ℕ) :
    ∀ x ∈ medianWindow data i half, x ∈ data := by
  intro x hx
  rw [medianWindow] at hx
  rcases List.mem_filterMap.mp hx with ⟨t, -, hf⟩
  split at hf
  · rename_i hcond
    rw [Option.some_inj] at hf
    rw [← hf]
    refine getD_mem_of_lt data (((i : ℤ) + t - half).toNat) 0 ?_
    omega
  · exact absurd hf (by simp)

theorem listMedian_mem {w : List ℝ} (hw : w ≠ []) : listMedian w ∈ w := by
  rw [listMedian]
  have hpos : 0 < w.length := List.length_pos.mpr hw
  have hmem : (w.insertionSort (· ≤ ·)).getD (w.length / 2) 0 ∈ w.insertionSort (· ≤ ·) := by
    refine getD_mem_of_lt _ _ _ ?_
    rw [List.length_insertionSort]
    omega
  exact (List.perm_insertionSort (· ≤ ·) w).mem_iff.mp hmem

theorem medianWindow_replicate_all (n : ℕ) (a : ℝ) (i half : ℕ) :
    ∀ x ∈ medianWindow (List.replicate n a) i half, x = a := by
  intro x hx
  rw [medianWindow] at hx
  rcases List.mem_filterMap.mp hx with ⟨t, -, hf⟩
  split at hf
  · rename_i hcond
    rw [Option.some_inj] at hf
    rw [← hf, getD_replicate]
    rw [if_pos (by simp only [List.length_replicate] at hcond; omega)]
  · exact absurd hf (by simp)

theorem orderedInsert_replicate_self (k : ℕ) (a : ℝ) :
    (List.replicate k a).orderedInsert (· ≤ ·) a = List.replicate (k + 1) a := by
  cases k with
  | zero => rfl
  | succ k =>
    rw [List.replicate_succ, List.orderedInsert, if_pos (le_refl a)]
    rfl

theorem insertionSort_replicate (k : ℕ) (a : ℝ) :
    (List.replicate k a).insertionSort (· ≤ ·) = List.replicate k a := by
  induction k with
  | zero => rfl
  | succ k ih =>
    rw [List.replicate_succ, List.insertionSort, ih, orderedInsert_replicate_self]
    rfl

theorem listMedian_replicate (k : ℕ) (a : ℝ) (hk : 0 < k) :
    listMedian (List.replicate k a) = a := by
  rw [listMedian, insertionSort_replicate, List.length_replicate, getD_replicate]
  rw [if_pos (by omega)]

theorem medianFilter_replicate (n : ℕ) (a : ℝ) :
    medianFilter (List.replicate n a) 3 = List.replicate n a := by
  rw [medianFilter, List.length_replicate]
  have hmed : ∀ i ∈ List.range n,
      listMedian (medianWindow (List.replicate n a) i (3 / 2)) = a := by
    intro i hi
    have hi' := List.mem_range.mp hi
    have hhalf : (3 : ℕ) / 2 = 1 := rfl
    rw [hhalf]
    have hne : medianWindow (List.replicate n a) i 1 ≠ [] := by
      intro hc
      have hm := self_mem_medianWindow (List.replicate n a) i 1 (by simpa using hi')
      rw [hc] at hm
      exact absurd hm (List.not_mem_nil _)
    have hrep : medianWindow (List.replicate n a) i 1 =
        List.replicate (medianWindow (List.replicate n a) i 1).length a :=
      List.eq_replicate_length.mpr (medianWindow_replicate_all n a i 1)
    rw [hrep, listMedian_replicate]
    have := List.length_pos.mpr hne
    omega
  rw [List.map_congr_left hmed]
  refine List.eq_replicate_iff.mpr ⟨by simp, ?_⟩
  intro b hb
  rcases List.mem_map.mp hb with ⟨i, -, rfl⟩
  rfl

/-- C10: `medianFilter data 3` preserves length; its i-th element is the
median (the sorted values' middle element, upper one for even windows) of the
in-bounds input values at indices i-1, i, i+1; every output element is an
element of the input; the empty list maps to the empty list; an all-equal
input is returned unchanged. -/
theorem medianFilter_spec (data : List ℝ) :
    (medianFilter data 3).length = data.length ∧
      (∀ i, i < data.length →
        (medianFilter data 3).getD i 0 = listMedian (medianWindow data i 1)) ∧
      (∀ x ∈ medianFilter data 3, x ∈ data) ∧
      medianFilter ([] : List ℝ) 3 = [] ∧
      (∀ (n : ℕ) (a : ℝ), medianFilter (List.replicate n a) 3 = List.replicate n a) := by
  refine ⟨by simp [medianFilter], ?_, ?_, medianFilter_nil 3,
    fun n a => medianFilter_replicate n a⟩
  · intro i hi
    rw [medianFilter, getD_range_map, if_pos hi]
  · intro x hx
    rw [medianFilter] at hx
    rcases List.mem_map.mp hx with ⟨i, hi, rfl⟩
    have hi' := List.mem_range.mp hi
    have hne : medianWindow data i (3 / 2) ≠ [] := by
      intro hc
      have hm := self_mem_medianWindow data i (3 / 2) hi'
      rw [hc] at hm
      exact absurd hm (List.not_mem_nil _)
    exact medianWindow_subset data i (3 / 2) _ (listMedian_mem hne)

theorem medianWindow_pair : medianWindow [(5 : ℝ), 1] 0 1 = [5, 1] := by
  rw [medianWindow]
  rw [show List.range (2 * 1 + 1) = [0, 1, 2] from rfl]
  norm_num [List.filterMap_cons]

theorem insertionSort_pair : ([(5 : ℝ), 1].insertionSort (· ≤ ·)) = [1, 5] := by
  norm_num [List.insertionSort, List.orderedInsert]

/-- Witness for C10 at a concrete list: length is preserved and the first
output entry is the (upper) median of the two in-bounds neighbours. -/
theorem medianFilter_spec_witness :
    (medianFilter [(5 : ℝ), 1] 3).length = 2 ∧
      (medianFilter [(5 : ℝ), 1] 3).getD 0 0 = 5 := by
  have h := medianFilter_spec [(5 : ℝ), 1]
  constructor
  · rw [h.1]
    norm_num
  · rw [h.2.1 0 (by norm_num), listMedian, medianWindow_pair, insertionSort_pair]
    norm_num

/-! ### The onset builder's length (C6) -/

theorem calculateOnsets_length (audioData : List ℝ) (sampleRate : ℕ) :
    (calculateOnsets audioData sampleRate 1024 512).length =
      (audioData.length - 1024 + 511) / 512 := by
  rw [calculateOnsets]
  simp only [List.length_map, List.length_range]
  omega

/-- C6 counterexample: a buffer of exactly 1024 samples yields an empty onset
sequence (the source loop bound is the strict `i < length - windowSize`),
while the claimed formula `max(0, floor((len-1024)/512) + 1)` gives 1. -/
theorem calculateOnsets_length_1024_ne_spec :
    ((calculateOnsets (List.replicate 1024 (0 : ℝ)) 44100 1024 512).length : ℤ) ≠
      specOnsetLen 1024 := by
  rw [calculateOnsets_length]
  rw [specOnsetLen]
  norm_num [Int.fdiv]

/-- C6 (amended): the builder emits one onset per window start `i = 512*k`
with the strict bound `i + 1024 < len`, so the onset count is
`⌈(len - 1024) / 512⌉` (truncated subtraction); in particular a 1024-sample
buffer yields 0 onsets, not 1. -/
theorem calculateOnsets_length_eq (audioData : List ℝ) (sampleRate : ℕ) :
    (calculateOnsets audioData sampleRate 1024 512).length =
      (audioData.length - 1024 + 511) / 512 ∧
    (∀ k : ℕ, k < (calculateOnsets audioData sampleRate 1024 512).length ↔
      512 * k + 1024 < audioData.length) := by
  refine ⟨calculateOnsets_length audioData sampleRate, fun k => ?_⟩
  rw [calculateOnsets_length]
  omega

/-! ### Generic first-strict-maximum fold lemmas -/

theorem jsRound_eq_of {x : ℝ} {n : ℤ} (h1 : (n : ℝ) ≤ x + 1 / 2) (h2 : x + 1 / 2 < n + 1) :
    jsRound x = n := by
  rw [jsRound, Int.floor_eq_iff]
  exact ⟨h1, h2⟩

theorem foldl_best_payload_score {α β γ : Type*} [LinearOrder γ] (score : α → γ)
    (payload : α → β) (l : List α) (b : β) (m : γ) :
    (l.foldl (fun acc x => if score x > acc.2 then (payload x, score x) else acc) (b, m) =
        (b, m) ∧ ∀ x ∈ l, score x ≤ m) ∨
    (∃ x ∈ l,
      l.foldl (fun acc x => if score x > acc.2 then (payload x, score x) else acc) (b, m) =
        (payload x, score x) ∧ m < score x ∧ ∀ y ∈ l, score y ≤ score x) := by
  induction l generalizing b m with
  | nil =>
    left
    exact ⟨rfl, by simp⟩
  | cons a t ih =>
    rw [List.foldl_cons]
    by_cases ha : score a > m
    · rw [if_pos ha]
      rcases ih (payload a) (score a) with ⟨heq, hle⟩ | ⟨x, hx, heq, hlt, hle⟩
      · right
        refine ⟨a, List.mem_cons_self a t, heq, ha, ?_⟩
        intro y hy
        rcases List.mem_cons.mp hy with rfl | hy'
        · exact le_refl _
        · exact hle y hy'
      · right
        refine ⟨x, List.mem_cons_of_mem a hx, heq, lt_trans ha hlt, ?_⟩
        intro y hy
        rcases List.mem_cons.mp hy with rfl | hy'
        · exact le_of_lt hlt
        · exact hle y hy'
    · rw [if_neg ha]
      push_neg at ha
      rcases ih b m with ⟨heq, hle⟩ | ⟨x, hx, heq, hlt, hle⟩
      · left
        refine ⟨heq, ?_⟩
        intro y hy
        rcases List.mem_cons.mp hy with rfl | hy'
        · exact ha
        · exact hle y hy'
      · right
        refine ⟨x, List.mem_cons_of_mem a hx, heq, hlt, ?_⟩
        intro y hy
        rcases List.mem_cons.mp hy with rfl | hy'
        · exact le_trans ha (le_of_lt hlt)
        · exact hle y hy'

theorem foldl_best_score_payload {α β γ : Type*} [LinearOrder γ] (score : α → γ)
    (payload : α → β) (l : List α) (b : β) (m : γ) :
    (l.foldl (fun acc x => if score x > acc.1 then (score x, payload x) else acc) (m, b) =
        (m, b) ∧ ∀ x ∈ l, score x ≤ m) ∨
    (∃ x ∈ l,
      l.foldl (fun acc x => if score x > acc.1 then (score x, payload x) else acc) (m, b) =
        (score x, payload x) ∧ m < score x ∧ ∀ y ∈ l, score y ≤ score x) := by
  induction l generalizing b m with
  | nil =>
    left
    exact ⟨rfl, by simp⟩
  | cons a t ih =>
    rw [List.foldl_cons]
    by_cases ha : score a > m
    · rw [if_pos ha]
      rcases ih (payload a) (score a) with ⟨heq, hle⟩ | ⟨x, hx, heq, hlt, hle⟩
      · right
        refine ⟨a, List.mem_cons_self a t, heq, ha, ?_⟩
        intro y hy
        rcases List.mem_cons.mp hy with rfl | hy'
        · exact le_refl _
        · exact hle y hy'
      · right
        refine ⟨x, List.mem_cons_of_mem a hx, heq, lt_trans ha hlt, ?_⟩
        intro y hy
        rcases List.mem_cons.mp hy with rfl | hy'
        · exact le_of_lt hlt
        · exact hle y hy'
    · rw [if_neg ha]
      push_neg at ha
      rcases ih b m with ⟨heq, hle⟩ | ⟨x, hx, heq, hlt, hle⟩
      · left
        refine ⟨heq, ?_⟩
        intro y hy
        rcases List.mem_cons.mp hy with rfl | hy'
        · exact ha
        · exact hle y hy'
      · right
        refine ⟨x, List.mem_cons_of_mem a hx, heq, hlt, ?_⟩
        intro y hy
        rcases List.mem_cons.mp hy with rfl | hy'
        · exact le_trans ha (le_of_lt hlt)
        · exact hle y hy'

theorem foldl_congr_mem {α β : Type*} (g g' : β → α → β) (l : List α) (init : β)
    (h : ∀ acc x, x ∈ l → g acc x = g' acc x) : l.foldl g init = l.foldl g' init := by
  induction l generalizing init with
  | nil => rfl
  | cons a t ih =>
    rw [List.foldl_cons, List.foldl_cons, h init a (List.mem_cons_self a t)]
    exact ih _ fun acc x hx => h acc x (List.mem_cons_of_mem a hx)

theorem foldl_eq_foldl_filter {α β : Type*} (g : β → α → β) (p : α → Bool)
    (l : List α) (init : β) (hg : ∀ acc x, p x = false → g acc x = acc) :
    l.foldl g init = (l.filter p).foldl g init := by
  induction l generalizing init with
  | nil => rfl
  | cons a t ih =>
    rw [List.foldl_cons, List.filter_cons]
    cases hpa : p a
    · rw [hg init a hpa, if_neg (by simp [hpa])]
      exact ih init
    · rw [if_pos (by simp [hpa]), List.foldl_cons]
      exact ih (g init a)

/-! ### The interval histogram (C5) -/

theorem createIntervalHistogram_count_aux (minB maxB : ℕ) (k : ℤ) (l : List ℝ)
    (acc : List (ℤ × ℕ)) :
    histGet 0 (l.foldl (fun histogram interval =>
      if (minB : ℤ) ≤ evenBPM interval ∧ evenBPM interval ≤ (maxB : ℤ) then
        histSet histogram (evenBPM interval) (histGet 0 histogram (evenBPM interval) + 1)
      else histogram) acc) k =
    histGet 0 acc k + (l.filter fun iv => decide (evenBPM iv = k ∧
      (minB : ℤ) ≤ evenBPM iv ∧ evenBPM iv ≤ (maxB : ℤ))).length := by
  induction l generalizing acc with
  | nil => simp
  | cons iv t ih =>
    rw [List.foldl_cons, List.filter_cons, ih]
    by_cases hr : (minB : ℤ) ≤ evenBPM iv ∧ evenBPM iv ≤ (maxB : ℤ)
    · rw [if_pos hr]
      by_cases hk : evenBPM iv = k
      · rw [if_pos (by simp only [decide_eq_true_eq]; exact ⟨hk, hr⟩)]
        rw [hk, histGet_histSet_self]
        simp only [List.length_cons]
        omega
      · rw [if_neg (by simp only [decide_eq_true_eq]; tauto)]
        rw [histGet_histSet_ne 0 acc _ k _ (fun hc => hk hc.symm)]
    · rw [if_neg hr, if_neg (by simp only [decide_eq_true_eq]; tauto)]

theorem createIntervalHistogram_pos (intervals : List ℝ) (minB maxB : ℕ) :
    ∀ kv ∈ createIntervalHistogram intervals minB maxB, 0 < kv.2 := by
  rw [createIntervalHistogram]
  refine foldl_invariant _ (fun h : List (ℤ × ℕ) => ∀ kv ∈ h, 0 < kv.2) intervals []
    (by simp) ?_
  intro acc x hx hacc
  dsimp only
  split
  · intro kv hkv
    rcases mem_histSet acc _ _ kv hkv with rfl | hmem
    · simp
    · exact hacc kv hmem
  · exact hacc

theorem evenBPM_cex : evenBPM ((60 : ℝ) / 61) = 62 := by
  rw [evenBPM]
  have h1 : (60 : ℝ) / ((60 : ℝ) / 61) / 2 = 61 / 2 := by norm_num
  rw [h1]
  rw [jsRound_eq_of (n := 31) (by norm_num) (by norm_num)]
  norm_num

theorem hist_cex : createIntervalHistogram [(60 : ℝ) / 61] 60 200 = [(62, 1)] := by
  rw [createIntervalHistogram, List.foldl_cons, List.foldl_nil]
  rw [if_pos (by rw [evenBPM_cex]; norm_num)]
  rw [evenBPM_cex]
  simp [histSet, histGet_nil]

theorem code_winner_cex :
    findDominantBPM (createIntervalHistogram [(60 : ℝ) / 61] 60 200) 60 200 = 62 := by
  rw [hist_cex, findDominantBPM, List.foldl_cons, List.foldl_nil]
  rw [if_pos (by norm_num)]
  norm_num

theorem jsRound_sixtyone : jsRound ((60 : ℝ) / ((60 : ℝ) / 61)) = 61 := by
  have h1 : (60 : ℝ) / ((60 : ℝ) / 61) = 61 := by norm_num
  rw [h1]
  exact jsRound_eq_of (by norm_num) (by norm_num)

theorem jsRound_thirtyone_half : jsRound (((61 : ℤ) : ℝ) / 2) = 31 := by
  have h : ((61 : ℤ) : ℝ) / 2 = 61 / 2 := by norm_num
  rw [h]
  exact jsRound_eq_of (by norm_num) (by norm_num)

theorem jsRound_double_sixtyone : jsRound (((61 : ℤ) : ℝ) * 2) = 122 := by
  have h : ((61 : ℤ) : ℝ) * 2 = ((122 : ℤ) : ℝ) := by norm_num
  rw [h, jsRound_intCast]

theorem specHist_cex : specHistogram [(60 : ℝ) / 61] 60 200 = [(61, 1), (122, 1 / 2)] := by
  rw [specHistogram, List.foldl_cons, List.foldl_nil]
  simp only [jsRound_sixtyone, jsRound_thirtyone_half, jsRound_double_sixtyone]
  rw [if_pos (by norm_num), if_neg (by norm_num), if_pos (by norm_num)]
  norm_num [histSet, histGet_nil, histGet_cons]

theorem spec_winner_cex : specHistWinner [(60 : ℝ) / 61] 60 200 = 61 := by
  rw [specHistWinner, specHist_cex]
  norm_num [List.foldl_cons, List.foldl_nil]

/-- C5 counterexample: the source histogram bins `60/interval` to the nearest
even integer with unit counts and no harmonics; for the single interval 60/61
seconds the code's winner is 62 BPM while the claimed rule (round to 61,
weight 1.0, plus 0.5-weighted harmonics) yields 61. -/
theorem histogramWinner_ne_specWinner :
    findDominantBPM (createIntervalHistogram [(60 : ℝ) / 61] 60 200) 60 200 ≠
      specHistWinner [(60 : ℝ) / 61] 60 200 := by
  rw [code_winner_cex, spec_winner_cex]
  norm_num

/-- C5 (amended): each interval adds count 1 to the single bucket
`round((60/interval)/2)*2` (nearest even BPM) when that bucket is within
range -- there are no half-time or double-time harmonic weights -- and the
winner is a bucket attaining the strictly greatest count (first on ties),
defaulting to 120 when the histogram is empty. -/
theorem intervalHistogram_amended (intervals : List ℝ) (minBPM maxBPM : ℕ) :
    (∀ k : ℤ, histGet 0 (createIntervalHistogram intervals minBPM maxBPM) k =
      (intervals.filter fun iv => decide (evenBPM iv = k ∧ (minBPM : ℤ) ≤ evenBPM iv ∧
        evenBPM iv ≤ (maxBPM : ℤ))).length) ∧
    findDominantBPM [] minBPM maxBPM = 120 ∧
    (createIntervalHistogram intervals minBPM maxBPM = [] →
      findDominantBPM (createIntervalHistogram intervals minBPM maxBPM) minBPM maxBPM = 120) ∧
    (createIntervalHistogram intervals minBPM maxBPM ≠ [] →
      ∃ kc ∈ createIntervalHistogram intervals minBPM maxBPM,
        findDominantBPM (createIntervalHistogram intervals minBPM maxBPM) minBPM maxBPM =
          (kc.1 : ℝ) ∧
        ∀ kc' ∈ createIntervalHistogram intervals minBPM maxBPM, kc'.2 ≤ kc.2) := by
  refine ⟨?_, rfl, ?_, ?_⟩
  · intro k
    rw [createIntervalHistogram]
    rw [createIntervalHistogram_count_aux]
    rw [histGet_nil]
    omega
  · intro hnil
    rw [hnil]
    rfl
  · intro hne
    rw [findDominantBPM]
    rcases foldl_best_score_payload (fun kv : ℤ × ℕ => kv.2) (fun kv => (kv.1 : ℝ))
      (createIntervalHistogram intervals minBPM maxBPM) (120 : ℝ) (0 : ℕ) with
      ⟨heq, hle⟩ | ⟨x, hx, heq, hlt, hle⟩
    · exfalso
      rcases List.exists_mem_of_ne_nil _ hne with ⟨kv, hkv⟩
      have h1 := createIntervalHistogram_pos intervals minBPM maxBPM kv hkv
      have h2 := hle kv hkv
      omega
    · refine ⟨x, hx, ?_, hle⟩
      rw [heq]

theorem evenBPM_one : evenBPM (1 : ℝ) = 60 := by
  rw [evenBPM]
  have h1 : (60 : ℝ) / 1 / 2 = 30 := by norm_num
  rw [h1]
  rw [jsRound_eq_of (n := 30) (by norm_num) (by norm_num)]
  norm_num

/-- Witness for C5 (amended): one 1-second interval yields count 1 in bucket
60, and an empty histogram yields the default 120. -/
theorem intervalHistogram_amended_witness :
    histGet 0 (createIntervalHistogram [(1 : ℝ)] 60 200) 60 = 1 ∧
      findDominantBPM (createIntervalHistogram ([] : List ℝ) 60 200) 60 200 = 120 := by
  constructor
  · rw [(intervalHistogram_amended [(1 : ℝ)] 60 200).1 60]
    rw [List.filter_cons, List.filter_nil]
    rw [if_pos (by rw [evenBPM_one]; simp)]
    rfl
  · exact (intervalHistogram_amended [] 60 200).2.2.1 rfl

/-! ### The autocorrelation fallback (C7) -/

theorem autoStep_invalid (onsets : List ℝ) (sampleRate hopSize : ℕ) (acc : ℝ × ℝ) (lag : ℕ)
    (h : ¬ 0 < onsets.length - lag) : autoStep onsets sampleRate hopSize acc lag = acc := by
  rw [autoStep, if_neg h]

theorem autoStep_valid (onsets : List ℝ) (sampleRate hopSize : ℕ) (acc : ℝ × ℝ) (lag : ℕ)
    (h : 0 < onsets.length - lag) :
    autoStep onsets sampleRate hopSize acc lag =
      if autoScore onsets lag > acc.2 then (autoBPM sampleRate hopSize lag, autoScore onsets lag)
      else acc := by
  rw [autoStep, if_pos h]

theorem estimateBPMFromEnergy_eq_filtered (onsets : List ℝ)
    (sampleRate hopSize minBPM maxBPM : ℕ) :
    estimateBPMFromEnergy onsets sampleRate hopSize minBPM maxBPM =
      max (minBPM : ℝ) (min (maxBPM : ℝ)
        ((specValidLags onsets sampleRate hopSize minBPM maxBPM).foldl
          (fun acc lag =>
            if autoScore onsets lag > acc.2 then
              (autoBPM sampleRate hopSize lag, autoScore onsets lag)
            else acc) ((120 : ℝ), (0 : ℝ))).1) := by
  simp only [estimateBPMFromEnergy, specValidLags]
  rw [foldl_eq_foldl_filter (autoStep onsets sampleRate hopSize)
    (fun lag => decide (0 < onsets.length - lag)) _ _
    (fun acc lag hfalse => autoStep_invalid onsets sampleRate hopSize acc lag
      (by simpa using hfalse))]
  rw [foldl_congr_mem (autoStep onsets sampleRate hopSize) _ _ _
    (fun acc lag hlag => autoStep_valid onsets sampleRate hopSize acc lag
      (by
        have := List.mem_filter.mp hlag
        simpa using this.2))]

/-- C7 (amended): the fallback clamps into [minBPM, maxBPM]; the pre-clamp
value is either the default 120 -- used when no lag in the search range has a
valid sample, and also when no such lag attains a strictly positive mean
correlation -- or the BPM conversion of a valid lag of strictly positive
maximal score. -/
theorem estimateBPMFromEnergy_amended (onsets : List ℝ) (sampleRate : ℕ) :
    (60 ≤ estimateBPMFromEnergy onsets sampleRate 512 60 200 ∧
      estimateBPMFromEnergy onsets sampleRate 512 60 200 ≤ 200) ∧
    ∃ b : ℝ, estimateBPMFromEnergy onsets sampleRate 512 60 200 = max 60 (min 200 b) ∧
      ((b = 120 ∧ ∀ lag ∈ specValidLags onsets sampleRate 512 60 200,
          autoScore onsets lag ≤ 0) ∨
       (∃ lag ∈ specValidLags onsets sampleRate 512 60 200,
          b = autoBPM sampleRate 512 lag ∧ 0 < autoScore onsets lag ∧
          ∀ lag' ∈ specValidLags onsets sampleRate 512 60 200,
            autoScore onsets lag' ≤ autoScore onsets lag)) := by
  refine ⟨estimateBPMFromEnergy_mem onsets sampleRate 512, ?_⟩
  rw [estimateBPMFromEnergy_eq_filtered]
  have hc60 : ((60 : ℕ) : ℝ) = 60 := by norm_num
  have hc200 : ((200 : ℕ) : ℝ) = 200 := by norm_num
  rw [hc60, hc200]
  rcases foldl_best_payload_score (fun lag => autoScore onsets lag)
    (fun lag => autoBPM sampleRate 512 lag)
    (specValidLags onsets sampleRate 512 60 200) (120 : ℝ) (0 : ℝ) with
    ⟨heq, hle⟩ | ⟨lag, hlag, heq, hlt, hle⟩
  · exact ⟨120, by rw [heq], Or.inl ⟨rfl, hle⟩⟩
  · exact ⟨autoBPM sampleRate 512 lag, by rw [heq], Or.inr ⟨lag, hlag, rfl, hlt, hle⟩⟩

/-- Witness for C7 (amended) at a concrete input. -/
theorem estimateBPMFromEnergy_amended_witness :
    60 ≤ estimateBPMFromEnergy [] 44100 512 60 200 ∧
      estimateBPMFromEnergy [] 44100 512 60 200 ≤ 200 :=
  (estimateBPMFromEnergy_amended [] 44100).1

theorem autoLags_9000 : autoLags 9000 512 60 200 = List.range' 5 13 := by
  rw [autoLags, autoMinLag, autoMaxLag]

theorem specValidLags_allzero :
    specValidLags (List.replicate 6 (0 : ℝ)) 9000 512 60 200 = [5] := by
  rw [specValidLags, autoLags_9000]
  simp only [List.length_replicate]
  decide

theorem autoScore_allzero : autoScore (List.replicate 6 (0 : ℝ)) 5 = 0 := by
  rw [autoScore]
  simp only [List.length_replicate]
  rw [show (6 - 5 : ℕ) = 1 from rfl, show List.range' 5 1 = [5] from rfl]
  simp [getD_replicate]

theorem fromEnergy_allzero :
    estimateBPMFromEnergy (List.replicate 6 (0 : ℝ)) 9000 512 60 200 = 120 := by
  rw [estimateBPMFromEnergy_eq_filtered, specValidLags_allzero]
  rw [List.foldl_cons, List.foldl_nil]
  rw [if_neg (by rw [autoScore_allzero]; norm_num)]
  norm_num

theorem specFromEnergyClaim_allzero :
    specFromEnergyClaim (List.replicate 6 (0 : ℝ)) 9000 512 60 200 = 200 := by
  simp only [specFromEnergyClaim, specValidLags_allzero]
  rw [if_neg (by simp)]
  rw [List.headD_cons, List.foldl_cons, List.foldl_nil]
  rw [if_neg (lt_irrefl _), autoBPM]
  have hc60 : ((60 : ℕ) : ℝ) = 60 := by norm_num
  have hc200 : ((200 : ℕ) : ℝ) = 200 := by norm_num
  rw [hc60, hc200]
  have hbpm : (60 : ℝ) / (((5 * 512 : ℕ) : ℝ) / ((9000 : ℕ) : ℝ)) = 3375 / 16 := by norm_num
  rw [hbpm, min_eq_left (by norm_num), max_eq_right (by norm_num)]

/-- C7 counterexample: on the all-zero onset sequence of length 6 at sample
rate 9000 every lag with valid samples scores 0, so the code keeps its default
120, while the claim's rule (default only when no lag has a valid sample)
converts the best-scoring valid lag 5 to a BPM and yields 200 after
clamping. -/
theorem fromEnergy_ne_specClaim :
    estimateBPMFromEnergy (List.replicate 6 (0 : ℝ)) 9000 512 60 200 ≠
      specFromEnergyClaim (List.replicate 6 (0 : ℝ)) 9000 512 60 200 := by
  rw [fromEnergy_allzero, specFromEnergyClaim_allzero]
  norm_num

/-! ### Amplitude invariance (C8) -/

theorem calculateSpectralFlux_scale (c : ℝ) (hc : 0 ≤ c) (w : List ℝ) :
    calculateSpectralFlux (w.map fun x => c * x) = c * calculateSpectralFlux w := by
  have h1 : (w.map fun x => c * x).map (fun x => x * x) =
      w.map fun x => c ^ 2 * (x * x) := by
    rw [List.map_map]
    refine List.map_congr_left fun x _ => ?_
    dsimp only [Function.comp]
    ring
  rw [calculateSpectralFlux, calculateSpectralFlux, h1, sum_map_mul_of, List.length_map]
  rw [mul_div_assoc, Real.sqrt_mul (by positivity), Real.sqrt_sq hc]

theorem windowAt_scale (c : ℝ) (audioData hannWindow : List ℝ) (i windowSize : ℕ) :
    windowAt (audioData.map fun x => c * x) hannWindow i windowSize =
      (windowAt audioData hannWindow i windowSize).map fun x => c * x := by
  rw [windowAt, windowAt, List.map_map]
  refine List.map_congr_left fun j _ => ?_
  dsimp only [Function.comp]
  rw [getD_map_mul]
  ring

theorem calculateOnsets_scale (c : ℝ) (hc : 0 ≤ c) (audioData : List ℝ)
    (sampleRate windowSize hopSize : ℕ) :
    calculateOnsets (audioData.map fun x => c * x) sampleRate windowSize hopSize =
      (calculateOnsets audioData sampleRate windowSize hopSize).map fun x => c * x := by
  simp only [calculateOnsets, List.length_map, List.map_map]
  refine List.map_congr_left fun k _ => ?_
  dsimp only [Function.comp]
  rw [windowAt_scale, calculateSpectralFlux_scale c hc]

theorem orderedInsert_scale (c : ℝ) (hc : 0 < c) (a : ℝ) (l : List ℝ) :
    (l.map fun x => c * x).orderedInsert (· ≤ ·) (c * a) =
      (l.orderedInsert (· ≤ ·) a).map fun x => c * x := by
  induction l with
  | nil => rfl
  | cons b t ih =>
    rw [List.map_cons, List.orderedInsert, List.orderedInsert]
    by_cases hab : a ≤ b
    · rw [if_pos (mul_le_mul_of_nonneg_left hab (le_of_lt hc)), if_pos hab]
      rfl
    · rw [if_neg (fun hmul => hab (le_of_mul_le_mul_left hmul hc)), if_neg hab,
        List.map_cons, ih]

theorem insertionSort_scale (c : ℝ) (hc : 0 < c) (l : List ℝ) :
    (l.map fun x => c * x).insertionSort (· ≤ ·) =
      (l.insertionSort (· ≤ ·)).map fun x => c * x := by
  induction l with
  | nil => rfl
  | cons a t ih =>
    rw [List.map_cons, List.insertionSort, List.insertionSort, ih, orderedInsert_scale c hc]

theorem medianWindow_scale (c : ℝ) (data : List ℝ) (i half : ℕ) :
    medianWindow (data.map fun x => c * x) i half =
      (medianWindow data i half).map fun x => c * x := by
  rw [medianWindow, medianWindow, List.map_filterMap]
  refine List.filterMap_congr fun t _ => ?_
  rw [List.length_map]
  by_cases hcond : 0 ≤ (i : ℤ) + t - half ∧ (i : ℤ) + t - half < (data.length : ℤ)
  · rw [if_pos hcond, if_pos hcond, Option.map_some', getD_map_mul]
  · rw [if_neg hcond, if_neg hcond]
    rfl

theorem listMedian_scale (c : ℝ) (hc : 0 < c) (w : List ℝ) :
    listMedian (w.map fun x => c * x) = c * listMedian w := by
  rw [listMedian, listMedian, insertionSort_scale c hc, List.length_map, getD_map_mul]

theorem medianFilter_scale (c : ℝ) (hc : 0 < c) (data : List ℝ) (windowSize : ℕ) :
    medianFilter (data.map fun x => c * x) windowSize =
      (medianFilter data windowSize).map fun x => c * x := by
  rw [medianFilter, medianFilter, List.length_map, List.map_map]
  refine List.map_congr_left fun i _ => ?_
  dsimp only [Function.comp]
  rw [medianWindow_scale, listMedian_scale c hc]

theorem pickMean_scale (c : ℝ) (data : List ℝ) :
    pickMean (data.map fun x => c * x) = c * pickMean data := by
  rw [pickMean, pickMean, List.length_map]
  have hsum : (data.map fun x => c * x).sum = c * data.sum := by
    have := sum_map_mul_of c data (fun x => x)
    simpa using this
  rw [hsum, mul_div_assoc]

theorem pickStdDev_scale (c : ℝ) (hc : 0 ≤ c) (data : List ℝ) :
    pickStdDev (data.map fun x => c * x) = c * pickStdDev data := by
  rw [pickStdDev, pickStdDev, List.length_map, pickMean_scale]
  have h1 : ((data.map fun x => c * x).map fun x => (x - c * pickMean data) ^ 2) =
      data.map fun x => c ^ 2 * ((x - pickMean data) ^ 2) := by
    rw [List.map_map]
    refine List.map_congr_left fun x _ => ?_
    dsimp only [Function.comp]
    ring
  rw [h1, sum_map_mul_of, mul_div_assoc, Real.sqrt_mul (by positivity), Real.sqrt_sq hc]

theorem pickThreshold_scale (c : ℝ) (hc : 0 ≤ c) (data : List ℝ) :
    pickThreshold (data.map fun x => c * x) = c * pickThreshold data := by
  rw [pickThreshold, pickThreshold, pickMean_scale, pickStdDev_scale c hc]
  ring

theorem pickPeaks_scale (c : ℝ) (hc : 0 < c) (data : List ℝ) :
    pickPeaks (data.map fun x => c * x) = pickPeaks data := by
  rw [pickPeaks, pickPeaks, List.length_map]
  refine List.filter_congr fun i _ => ?_
  rw [getD_map_mul, getD_map_mul, getD_map_mul, pickThreshold_scale c (le_of_lt hc)]
  apply decide_eq_decide.mpr
  rw [mul_lt_mul_left hc, mul_lt_mul_left hc, mul_lt_mul_left hc]

theorem autoScore_scale (c : ℝ) (onsets : List ℝ) (lag : ℕ) :
    autoScore (onsets.map fun x => c * x) lag = c ^ 2 * autoScore onsets lag := by
  rw [autoScore, autoScore, List.length_map]
  have h1 : ((List.range' lag (onsets.length - lag)).map fun i =>
      (onsets.map fun x => c * x).getD i 0 * (onsets.map fun x => c * x).getD (i - lag) 0) =
      (List.range' lag (onsets.length - lag)).map fun i =>
        c ^ 2 * (onsets.getD i 0 * onsets.getD (i - lag) 0) := by
    refine List.map_congr_left fun i _ => ?_
    rw [getD_map_mul, getD_map_mul]
    ring
  rw [h1, sum_map_mul_of, mul_div_assoc]

theorem fromEnergy_scale (c : ℝ) (hc : 0 < c) (onsets : List ℝ)
    (sampleRate hopSize minBPM maxBPM : ℕ) :
    estimateBPMFromEnergy (onsets.map fun x => c * x) sampleRate hopSize minBPM maxBPM =
      estimateBPMFromEnergy onsets sampleRate hopSize minBPM maxBPM := by
  simp only [estimateBPMFromEnergy]
  have hsq : (0 : ℝ) < c ^ 2 := by positivity
  have hfold : ∀ (l : List ℕ) (acc : ℝ × ℝ),
      l.foldl (autoStep (onsets.map fun x => c * x) sampleRate hopSize) (acc.1, c ^ 2 * acc.2) =
        ((l.foldl (autoStep onsets sampleRate hopSize) acc).1,
          c ^ 2 * (l.foldl (autoStep onsets sampleRate hopSize) acc).2) := by
    intro l
    induction l with
    | nil => intro acc; rfl
    | cons lag t ih =>
      intro acc
      rw [List.foldl_cons, List.foldl_cons]
      by_cases hv : 0 < onsets.length - lag
      · rw [autoStep_valid _ _ _ _ _ (by simpa using hv), autoStep_valid _ _ _ _ _ hv]
        rw [autoScore_scale]
        by_cases hgt : autoScore onsets lag > acc.2
        · rw [if_pos (by
            show c ^ 2 * autoScore onsets lag > (acc.1, c ^ 2 * acc.2).2
            exact (mul_lt_mul_left hsq).mpr hgt)]
          rw [if_pos hgt]
          exact ih (autoBPM sampleRate hopSize lag, autoScore onsets lag)
        · rw [if_neg (by
            show ¬ c ^ 2 * autoScore onsets lag > (acc.1, c ^ 2 * acc.2).2
            exact fun hmul => hgt ((mul_lt_mul_left hsq).mp hmul))]
          rw [if_neg hgt]
          exact ih acc
      · rw [autoStep_invalid _ _ _ _ _ (by simpa using hv), autoStep_invalid _ _ _ _ _ hv]
        exact ih acc
  have hinit := hfold (autoLags sampleRate hopSize minBPM maxBPM) (120, 0)
  rw [show (((120 : ℝ), (0 : ℝ)).1, c ^ 2 * ((120 : ℝ), (0 : ℝ)).2) = ((120 : ℝ), (0 : ℝ))
    by simp] at hinit
  rw [hinit]

theorem findTempo_scale (c : ℝ) (hc : 0 < c) (onsets : List ℝ)
    (sampleRate hopSize minBPM maxBPM : ℕ) :
    findTempo (onsets.map fun x => c * x) sampleRate hopSize minBPM maxBPM =
      findTempo onsets sampleRate hopSize minBPM maxBPM := by
  simp only [findTempo, pickPeaks_scale c hc, fromEnergy_scale c hc]

theorem tempoSegment_scale (c : ℝ) (onsets : List ℝ) (i : ℕ) :
    tempoSegment (onsets.map fun x => c * x) i =
      (tempoSegment onsets i).map fun x => c * x := by
  simp only [tempoSegment, List.length_map]
  rw [List.map_take, List.map_drop]

theorem findStableTempo_scale (c : ℝ) (hc : 0 < c) (onsets : List ℝ)
    (sampleRate hopSize minBPM maxBPM : ℕ) :
    findStableTempo (onsets.map fun x => c * x) sampleRate hopSize minBPM maxBPM =
      findStableTempo onsets sampleRate hopSize minBPM maxBPM := by
  simp only [findStableTempo, tempoSegment_scale, findTempo_scale c hc]

/-- C8: multiplying every sample by the same positive constant does not change
the detected BPM (exact real arithmetic): the onset sequence, median filter
and peak decisions all scale consistently, and every comparison made by the
pipeline is scale-invariant. -/
theorem detectBPM_scale_invariant (audioData : List ℝ) (sampleRate : ℕ) (c : ℝ)
    (hc : 0 < c) :
    detectBPM (audioData.map fun x => c * x) sampleRate = detectBPM audioData sampleRate := by
  rw [detectBPM, detectBPM, calculateOnsets_scale c (le_of_lt hc), medianFilter_scale c hc,
    findStableTempo_scale c hc]

/-- Witness for C8 at a concrete buffer and constant. -/
theorem detectBPM_scale_invariant_witness :
    0 < (2 : ℝ) ∧
      detectBPM ([(1 : ℝ)].map fun x => 2 * x) 44100 = detectBPM [(1 : ℝ)] 44100 :=
  ⟨by norm_num, detectBPM_scale_invariant [(1 : ℝ)] 44100 2 (by norm_num)⟩

/-! ### The pipeline structure (C3) -/

/-- The RMS energy of the Hann window itself: the onset strength the builder
emits on an all-ones buffer. -/
def hannFlux : ℝ := calculateSpectralFlux (createHannWindow 1024)

theorem windowAt_ones (n i : ℕ) (h : i + 1024 ≤ n) :
    windowAt (List.replicate n (1 : ℝ)) (createHannWindow 1024) i 1024 =
      createHannWindow 1024 := by
  rw [windowAt]
  have h1 : ∀ j ∈ List.range 1024,
      (List.replicate n (1 : ℝ)).getD (i + j) 0 * (createHannWindow 1024).getD j 0 =
        (createHannWindow 1024).getD j 0 := by
    intro j hj
    have hj' := List.mem_range.mp hj
    rw [getD_replicate, if_pos (by omega), one_mul]
  rw [List.map_congr_left h1]
  rw [createHannWindow]
  refine List.map_congr_left fun j hj => ?_
  rw [getD_range_map, if_pos (List.mem_range.mp hj)]

theorem calculateOnsets_ones :
    calculateOnsets (List.replicate 5120 (1 : ℝ)) 9000 1024 512 =
      List.replicate 8 hannFlux := by
  simp only [calculateOnsets, List.length_replicate]
  refine List.eq_replicate_iff.mpr ⟨by rw [List.length_map, List.length_range], ?_⟩
  intro b hb
  rcases List.mem_map.mp hb with ⟨k, hk, rfl⟩
  have hk' := List.mem_range.mp hk
  rw [windowAt_ones 5120 (k * 512) (by omega)]
  rfl

theorem cos_hann_arg_lt_one : Real.cos (2 * Real.pi * 256 / 1023) < 1 := by
  rcases lt_or_eq_of_le (Real.cos_le_one (2 * Real.pi * 256 / 1023)) with h | h
  · exact h
  · exfalso
    rcases (Real.cos_eq_one_iff _).mp h with ⟨n, hn⟩
    have hpi := Real.pi_pos
    have h2 : (n : ℝ) * (2 * Real.pi) = 256 / 1023 * (2 * Real.pi) := by
      rw [hn]
      ring
    have hval : (n : ℝ) = 256 / 1023 := mul_right_cancel₀ (by positivity) h2
    have h0 : (0 : ℝ) < (n : ℝ) := by
      rw [hval]
      norm_num
    have h1 : (n : ℝ) < 1 := by
      rw [hval]
      norm_num
    have hz : (0 : ℤ) < n := by exact_mod_cast h0
    have ho : (1 : ℤ) ≤ n := hz
    have ho' : (1 : ℝ) ≤ (n : ℝ) := by exact_mod_cast ho
    linarith

theorem hannFlux_pos : 0 < hannFlux := by
  rw [hannFlux, calculateSpectralFlux]
  apply Real.sqrt_pos.mpr
  apply div_pos
  · have hcoeff : (0.5 * (1 - Real.cos (2 * Real.pi * (256 : ℕ) / ((1024 - 1 : ℕ) : ℝ)))) *
        (0.5 * (1 - Real.cos (2 * Real.pi * (256 : ℕ) / ((1024 - 1 : ℕ) : ℝ)))) ∈
        ((createHannWindow 1024).map fun x => x * x) := by
      refine List.mem_map.mpr ⟨_, ?_, rfl⟩
      rw [createHannWindow]
      exact List.mem_map.mpr ⟨256, List.mem_range.mpr (by norm_num), rfl⟩
    have hnonneg : ∀ x ∈ ((createHannWindow 1024).map fun x => x * x), 0 ≤ x := by
      intro x hx
      rcases List.mem_map.mp hx with ⟨y, -, rfl⟩
      exact mul_self_nonneg y
    have hle := List.single_le_sum hnonneg _ hcoeff
    have hcos : Real.cos (2 * Real.pi * (256 : ℕ) / ((1024 - 1 : ℕ) : ℝ)) < 1 := by
      have hcast : 2 * Real.pi * ((256 : ℕ) : ℝ) / (((1024 - 1 : ℕ)) : ℝ) =
          2 * Real.pi * 256 / 1023 := by
        norm_num
      rw [hcast]
      exact cos_hann_arg_lt_one
    nlinarith [hcos, hle]
  · have hlen : (createHannWindow 1024).length = 1024 := by
      rw [createHannWindow, List.length_map, List.length_range]
    rw [hlen]
    norm_num

theorem pickPeaks_replicate (n : ℕ) (a : ℝ) : pickPeaks (List.replicate n a) = [] := by
  rw [pickPeaks]
  rw [List.filter_eq_nil_iff]
  intro i hi
  have hi' := List.mem_range'_1.mp hi
  simp only [List.length_replicate] at hi'
  simp only [decide_eq_true_eq, not_and]
  intro h1
  exfalso
  rw [getD_replicate, getD_replicate, if_pos (by omega), if_pos (by omega)] at h1
  exact lt_irrefl a h1

theorem fromEnergy_short (onsets : List ℝ) (sampleRate hopSize minBPM maxBPM : ℕ)
    (h : onsets.length ≤ autoMinLag sampleRate hopSize maxBPM) :
    estimateBPMFromEnergy onsets sampleRate hopSize minBPM maxBPM =
      max (minBPM : ℝ) (min (maxBPM : ℝ) 120) := by
  simp only [estimateBPMFromEnergy]
  have hfix : ∀ (acc : ℝ × ℝ) (lag : ℕ), lag ∈ autoLags sampleRate hopSize minBPM maxBPM →
      autoStep onsets sampleRate hopSize acc lag = acc := by
    intro acc lag hlag
    rw [autoLags] at hlag
    have hmem := List.mem_range'_1.mp hlag
    exact autoStep_invalid _ _ _ _ _ (by omega)
  rw [foldl_fixed _ _ _ hfix]

theorem findTempo_replicate (n : ℕ) (a : ℝ) (sampleRate : ℕ)
    (h : n ≤ autoMinLag sampleRate 512 200) :
    findTempo (List.replicate n a) sampleRate 512 60 200 = 120 := by
  simp only [findTempo, pickPeaks_replicate]
  rw [if_pos (by norm_num)]
  rw [fromEnergy_short _ _ _ _ _ (by simpa using h)]
  norm_num

theorem autoMinLag_9000 : autoMinLag 9000 512 200 = 5 := by
  rw [autoMinLag]

theorem tempoSegment_rep8_0 :
    tempoSegment (List.replicate 8 hannFlux) 0 = List.replicate 4 hannFlux := by
  simp only [tempoSegment, List.length_replicate, List.drop_replicate, List.take_replicate]
  norm_num

theorem tempoSegment_rep8_1 :
    tempoSegment (List.replicate 8 hannFlux) 1 = List.replicate 4 hannFlux := by
  simp only [tempoSegment, List.length_replicate, List.drop_replicate, List.take_replicate]
  norm_num

theorem tempoSegment_rep8_2 :
    tempoSegment (List.replicate 8 hannFlux) 2 = List.replicate 4 hannFlux := by
  simp only [tempoSegment, List.length_replicate, List.drop_replicate, List.take_replicate]
  norm_num

theorem tempoSegment_rep8_3 :
    tempoSegment (List.replicate 8 hannFlux) 3 = List.replicate 2 hannFlux := by
  simp only [tempoSegment, List.length_replicate, List.drop_replicate, List.take_replicate]
  norm_num

theorem findStableTempo_ones :
    findStableTempo (List.replicate 8 hannFlux) 9000 512 60 200 = 120 := by
  have hcand : ∀ i ∈ List.range 4,
      findTempo (tempoSegment (List.replicate 8 hannFlux) i) 9000 512 60 200 = (120 : ℝ) := by
    intro i hi
    have hi' := List.mem_range.mp hi
    interval_cases i
    · rw [tempoSegment_rep8_0]
      exact findTempo_replicate 4 _ _ (by rw [autoMinLag_9000]; norm_num)
    · rw [tempoSegment_rep8_1]
      exact findTempo_replicate 4 _ _ (by rw [autoMinLag_9000]; norm_num)
    · rw [tempoSegment_rep8_2]
      exact findTempo_replicate 4 _ _ (by rw [autoMinLag_9000]; norm_num)
    · rw [tempoSegment_rep8_3]
      exact findTempo_replicate 2 _ _ (by rw [autoMinLag_9000]; norm_num)
  simp only [findStableTempo]
  rw [List.map_congr_left hcand]
  rw [show (List.range 4).map (fun _ : ℕ => (120 : ℝ)) = [120, 120, 120, 120] from rfl]
  norm_num [List.foldl_cons, List.foldl_nil, histSet, histGet_nil, histGet_cons,
    List.any_cons, List.any_nil]

theorem detectBPM_ones : detectBPM (List.replicate 5120 (1 : ℝ)) 9000 = 120 := by
  rw [detectBPM, calculateOnsets_ones, medianFilter_replicate, findStableTempo_ones]
  exact jsRound_onetwenty

theorem specValidLags_ones :
    specValidLags (List.replicate 8 hannFlux) 9000 512 60 200 = [5, 6, 7] := by
  rw [specValidLags, autoLags_9000]
  simp only [List.length_replicate]
  decide

theorem sum_map_const {α : Type*} (l : List α) (b : ℝ) :
    (l.map fun _ => b).sum = l.length * b := by
  induction l with
  | nil => simp
  | cons a t ih =>
    simp only [List.map_cons, List.sum_cons, ih, List.length_cons]
    push_cast
    ring

theorem autoScore_rep8 (lag : ℕ) (h5 : 5 ≤ lag) (h8 : lag < 8) :
    autoScore (List.replicate 8 hannFlux) lag = hannFlux * hannFlux := by
  rw [autoScore]
  simp only [List.length_replicate]
  have hmap : ((List.range' lag (8 - lag)).map fun i =>
      (List.replicate 8 hannFlux).getD i 0 * (List.replicate 8 hannFlux).getD (i - lag) 0) =
      (List.range' lag (8 - lag)).map fun _ => hannFlux * hannFlux := by
    refine List.map_congr_left fun i hi => ?_
    have hi' := List.mem_range'_1.mp hi
    rw [getD_replicate, getD_replicate, if_pos (by omega), if_pos (by omega)]
  rw [hmap, sum_map_const, List.length_range']
  exact mul_div_cancel_left₀ _ (Nat.cast_ne_zero.mpr (by omega))

theorem fromEnergy_ones_fold :
    ([5, 6, 7].foldl (fun (acc : ℝ × ℝ) lag =>
        if autoScore (List.replicate 8 hannFlux) lag > acc.2 then
          (autoBPM 9000 512 lag, autoScore (List.replicate 8 hannFlux) lag)
        else acc) ((120 : ℝ), (0 : ℝ))).1 = autoBPM 9000 512 5 := by
  have h5 := autoScore_rep8 5 (by norm_num) (by norm_num)
  have h6 := autoScore_rep8 6 (by norm_num) (by norm_num)
  have h7 := autoScore_rep8 7 (by norm_num) (by norm_num)
  have hE2 : (0 : ℝ) < hannFlux * hannFlux := mul_pos hannFlux_pos hannFlux_pos
  rw [List.foldl_cons, if_pos (by rw [h5]; exact hE2)]
  rw [List.foldl_cons, if_neg (by rw [h6, h5]; exact lt_irrefl _)]
  rw [List.foldl_cons, if_neg (by rw [h7, h5]; exact lt_irrefl _)]
  rw [List.foldl_nil]

theorem fromEnergy_ones :
    estimateBPMFromEnergy (List.replicate 8 hannFlux) 9000 512 60 200 = 200 := by
  rw [estimateBPMFromEnergy_eq_filtered, specValidLags_ones, fromEnergy_ones_fold]
  have hbpm : autoBPM 9000 512 5 = 3375 / 16 := by
    rw [autoBPM]
    norm_num
  have hc60 : ((60 : ℕ) : ℝ) = 60 := by norm_num
  have hc200 : ((200 : ℕ) : ℝ) = 200 := by norm_num
  rw [hbpm, hc60, hc200, min_eq_left (by norm_num), max_eq_right (by norm_num)]

theorem estimateTempoSpec_ones :
    estimateTempoSpec (List.replicate 5120 (1 : ℝ)) 9000 = 200 := by
  simp only [estimateTempoSpec, calculateOnsets_ones, pickPeaks_replicate]
  rw [if_neg (by norm_num)]
  rw [fromEnergy_ones]
  exact jsRound_twohundred

/-- C3 counterexample: on a 5120-sample all-ones buffer at sample rate 9000
the top-level `detectBPM` returns 120, but the spec's single-pass pipeline
(onsets, peak picking, fallback, round -- with no median filter and no
four-segment mode vote) returns 200: the extra stages change the result. -/
theorem detectBPM_ne_spec_pipeline :
    detectBPM (List.replicate 5120 (1 : ℝ)) 9000 ≠
      estimateTempoSpec (List.replicate 5120 (1 : ℝ)) 9000 := by
  rw [detectBPM_ones, estimateTempoSpec_ones]
  norm_num

/-- C3 (amended): the top level is round ∘ findStableTempo ∘ medianFilter ∘
calculateOnsets -- the onset sequence is median-filtered (window 3) and the
result is the mode of four overlapping-segment estimates, where each segment
uses the histogram path when it has at least two peaks and the
autocorrelation fallback otherwise; rounding happens at the very end. -/
theorem detectBPM_pipeline_amended (audioData : List ℝ) (sampleRate : ℕ) :
    detectBPM audioData sampleRate =
      jsRound (findStableTempo (medianFilter (calculateOnsets audioData sampleRate 1024 512) 3)
        sampleRate 512 60 200) ∧
    (∀ onsets : List ℝ, findTempo onsets sampleRate 512 60 200 =
      if 2 ≤ (pickPeaks onsets).length then
        findDominantBPM (createIntervalHistogram
          (peakIntervals (pickPeaks onsets) sampleRate 512) 60 200) 60 200
      else estimateBPMFromEnergy onsets sampleRate 512 60 200) := by
  refine ⟨rfl, fun onsets => ?_⟩
  simp only [findTempo]
  rcases Nat.lt_or_ge (pickPeaks onsets).length 2 with h | h
  · rw [if_pos h, if_neg (by omega)]
  · rw [if_neg (by omega), if_pos h]

/-- Witness for C3 (amended) at a concrete input. -/
theorem detectBPM_pipeline_amended_witness :
    detectBPM [] 44100 =
      jsRound (findStableTempo (medianFilter (calculateOnsets [] 44100 1024 512) 3)
        44100 512 60 200) :=
  (detectBPM_pipeline_amended [] 44100).1

end
